import Mathlib

/-
Verification of the object-store abstraction layer (`pairprog/objectstore.py`)
and the layered-configuration loader (`pairprog/config.py`).

Python strings are modelled as `List Char`, Python byte strings as `List Nat`,
and Python dictionaries as association lists (`List (key × value)`) with
first-match lookup and in-place update, matching dict semantics (unique keys,
insertion order preserved, assignment overwrites in place).
-/

namespace PairProg

/-- Python strings, modelled as lists of characters. -/
abbrev Str := List Char

/-- Conversion from Lean string literals to the `Str` model. -/
def ofStr (s : String) : Str := s.data

/-! ## Association-list model of Python dictionaries -/

/-- First-match lookup, i.e. `d[k]` / `d.get(k)` on a Python dict
(keys of a dict are unique, so first match is the only match). -/
def lookupA {α β : Type} [DecidableEq α] (es : List (α × β)) (k : α) : Option β :=
  (es.find? (fun e => e.1 = k)).map (fun e => e.2)

/-- Last-match lookup; `dict(pairs)` keeps the LAST value bound to a key. -/
def lookupLastA {α β : Type} [DecidableEq α] (es : List (α × β)) (k : α) : Option β :=
  lookupA es.reverse k

/-- Python dict assignment `d[k] = v`: overwrite in place if the key is
present, otherwise append at the end (insertion order). -/
def setA {α β : Type} [DecidableEq α] (es : List (α × β)) (k : α) (v : β) :
    List (α × β) :=
  if es.any (fun e => e.1 = k) then
    es.map (fun e => if e.1 = k then (k, v) else e)
  else
    es ++ [(k, v)]

/-- Python `del d[k]` / removal of an entry: drop the first entry with key `k`. -/
def eraseA {α β : Type} [DecidableEq α] (es : List (α × β)) (k : α) : List (α × β) :=
  es.eraseP (fun e => e.1 = k)

/-- Python `dict(pairs)`: fold assignments left to right (last value wins,
first-occurrence insertion order). -/
def dictOf {α β : Type} [DecidableEq α] (l : List (α × β)) : List (α × β) :=
  l.foldl (fun acc pr => setA acc pr.1 pr.2) []

/-! ## Key namespace: `ObjectStore.join_path` / `join_pathb` / `sub`

Source: `objectstore.py` lines 201-240.
-/

/-- The character predicate used by Python's `"...".strip("/")`. -/
def isSlash (c : Char) : Bool := c = '/'

/-- Python `s.strip("/")`: remove all leading and trailing slashes. -/
def stripSlashes (s : Str) : Str :=
  ((s.dropWhile isSlash).reverse.dropWhile isSlash).reverse

/-- `ObjectStore.join_path(*args)`:
`args = [self.prefix] + list(args)`; drop falsy entries; strip slashes from
each; drop entries that became empty; join with "/". -/
def joinPath (pfx : Str) (args : List Str) : Str :=
  let xs := (pfx :: args).filter (fun e => !e.isEmpty)
  let xs := xs.map stripSlashes
  let xs := xs.filter (fun e => !e.isEmpty)
  (xs.intersperse (ofStr "/")).flatten

/-- Identity of a store handle: the `(bucket, prefix)` pair shared by all
backends (`ObjectStore.__init__`). -/
structure StoreId where
  bucket : Str
  pfx : Str
deriving DecidableEq, Repr

/-- `ObjectStore.join_pathb(*args) = self.bucket + "/" + self.join_path(*args)`. -/
def joinPathB (s : StoreId) (args : List Str) : Str :=
  s.bucket ++ '/' :: joinPath s.pfx args

/-- `ObjectStore.sub(*args)` (lines 201-226), the shared implementation used
by the embedded-dictionary and file-per-key backends: the new store is built
from `config["bucket"] = self.bucket` and
`config["prefix"] = self.join_path(*args)`, and the constructor keeps both
unchanged.  (`S3ObjectStore.sub` and `RedisObjectStore.sub` override this
and are modelled separately: `s3Sub` re-runs the S3 constructor's
bucket-slash fold, `redisSub` does not.) -/
def subStore (s : StoreId) (args : List Str) : StoreId :=
  ⟨s.bucket, joinPath s.pfx args⟩

/-! ## Values, the codec, and Python-level errors -/

/-- The Python exceptions raised by this layer. -/
inductive PyErr where
  /-- `KeyError`, raised for a missing key (the NotFound condition). -/
  | keyError (k : Str)
  /-- `FileNotFoundError`, raised by `Path.unlink` / `Path.read_bytes` on a missing file. -/
  | fileNotFound (p : Str)
  /-- `TypeError`, raised e.g. by `pickle.loads` on a non-bytes argument. -/
  | typeError
  /-- `ValueError`, raised by `ObjectStore.__init__` for an underscore in the bucket name. -/
  | valueError (bucket : Str)
  /-- `IOError`, raised by `S3ObjectStore.get` for an unrecognized content type. -/
  | ioError
  /-- `AttributeError` (the `r.read()` slip in the gzip branch of `S3ObjectStore.get`). -/
  | attributeError
deriving DecidableEq, Repr

/-- Values stored through the object-store layer.  JSON-serializable
structures are identified by their JSON text and opaque picklable objects by
their pickle serialization; both serializers are injective on their domains,
so this identification is faithful for round-trip claims. -/
inductive Value where
  /-- a `str` -/
  | vstr (s : Str)
  /-- a `bytes` object -/
  | vbytes (b : List Nat)
  /-- a `PosixPath` pointing at a file -/
  | vpath (p : Str)
  /-- a JSON-serializable object, identified by its `json.dumps` text -/
  | vjson (txt : Str)
  /-- an object `json.dumps` rejects, identified by its `pickle.dumps` bytes -/
  | vobj (pb : List Nat)
deriving DecidableEq, Repr

/-- Encoded payloads produced by `_to_bytes`, tagged by their encoding. -/
inductive Blob where
  /-- UTF-8 encoded text (`text/plain; charset=utf-8`) -/
  | utf8 (s : Str)
  /-- raw bytes (`application/octet-stream`) -/
  | octets (b : List Nat)
  /-- JSON text bytes (`application/json`) -/
  | jsonb (txt : Str)
  /-- pickle bytes (`application/x-pickle`) -/
  | pkl (pb : List Nat)
deriving DecidableEq, Repr

/-- The ambient Python environment: the filesystem contents seen by
`Path.read_bytes`, the `magic` MIME sniffer, and `slugify`.  All three are
opaque to this layer, so they are universally quantified parameters. -/
structure PyEnv where
  fileBytes : Str → List Nat
  magicCT : List Nat → Str
  slugify : Str → Str

/-- `_to_bytes(o)` (lines 45-96): returns `(bytes, size, content_type, ext)`.
Dispatch order follows the source: `PosixPath`, `str`, `bytes`, (buffers are
not modelled), JSON-serializable, pickle fallback.  Note that for a `str` the
source sets `size = len(o)` (character count) BEFORE encoding; for the other
branches the size is the byte length. -/
def toBytes (env : PyEnv) : Value → Blob × Nat × Str × Str
  | .vpath p =>
      let b := env.fileBytes p
      (.octets b, b.length, env.magicCT b, ofStr "")
  | .vstr s => (.utf8 s, s.length, ofStr "text/plain; charset=utf-8", ofStr "")
  | .vbytes b => (.octets b, b.length, ofStr "application/octet-stream", ofStr "")
  | .vjson txt => (.jsonb txt, txt.length, ofStr "application/json", ofStr "")
  | .vobj pb => (.pkl pb, pb.length, ofStr "application/x-pickle", ofStr "")

/-! ## Construction (`__init__`) of the four backends

`ObjectStore.__init__` (lines 189-199) rejects an underscore in the bucket
name with `ValueError`.  `LocalObjectStore`, `FSObjectStore` and
`S3ObjectStore` all call it via `super().__init__`; `RedisObjectStore.__init__`
(lines 677-692) does NOT call it and performs no validation.
-/

/-- `ObjectStore.__init__(bucket, prefix)`: `self.prefix = prefix or ""`;
raise `ValueError` if the bucket contains an underscore. -/
def osInit (bucket : Str) (pfx? : Option Str) : Except PyErr StoreId :=
  if '_' ∈ bucket then .error (.valueError bucket)
  else .ok ⟨bucket, pfx?.getD []⟩

/-- Identity of a disk-backed store handle (`LocalObjectStore`,
`LocalLargeObjectStore`, `FSObjectStore`): bucket, prefix, and the `path`
constructor argument.  `self.path = str(path / self.bucket)`. -/
structure LocalStore where
  bucket : Str
  pfx : Str
  root : Str
deriving DecidableEq, Repr

/-- `LocalObjectStore.__init__` (also inherited by `LocalLargeObjectStore`):
delegates the bucket check to `ObjectStore.__init__` before touching the
filesystem. -/
def localInit (root bucket : Str) (pfx? : Option Str) : Except PyErr LocalStore :=
  (osInit bucket pfx?).map (fun s => ⟨s.bucket, s.pfx, root⟩)

/-- `FSObjectStore.__init__`: delegates to `LocalObjectStore.__init__`,
hence also checks the bucket name. -/
def fsInit (root bucket : Str) (pfx? : Option Str) : Except PyErr LocalStore :=
  localInit root bucket pfx?

/-- Splits `s` at the first occurrence of `c` (Python `s.split(c, 1)` when
`c` occurs), returning the parts before and after. -/
def splitFirst (c : Char) : Str → Option (Str × Str)
  | [] => none
  | x :: xs =>
      if x = c then some ([], xs)
      else (splitFirst c xs).map (fun pr => (x :: pr.1, pr.2))

/-- `S3ObjectStore.__init__` (lines 305-358): `super().__init__` first (so the
underscore check fires before any network access), then, if the bucket name
contains a "/", the part after the first "/" is folded into the prefix.
(The local variable `bucket` is rebound by `bucket.split("/", 1)` but
`self.bucket` keeps the full name — modelled faithfully.) -/
def s3Init (bucket : Str) (pfx? : Option Str) : Except PyErr StoreId := do
  let base ← osInit bucket pfx?
  match splitFirst '/' bucket with
  | none => .ok base
  | some (_, rest) =>
      match pfx? with
      | none => .ok ⟨base.bucket, rest⟩
      | some _ => .ok ⟨base.bucket, rest ++ '/' :: base.pfx⟩

/-- `S3ObjectStore.sub(*args)` without a class change (lines 360-373):
constructs a fresh `S3ObjectStore(bucket=self.bucket,
prefix=self.prefix if not args else self.join_path(*args), ..., client=self.client)`.
The fresh construction re-runs `__init__`, including its bucket-slash fold,
so for a bucket containing "/" every `sub` prepends the bucket remnant to
the prefix again. -/
def s3Sub (s : StoreId) (args : List Str) : Except PyErr StoreId :=
  s3Init s.bucket (some (if args.isEmpty then s.pfx else joinPath s.pfx args))

/-- Identity of a `RedisObjectStore` handle. -/
structure RedisStore where
  bucket : Str
  pfx : Str
  url : Str
deriving DecidableEq, Repr

/-- `RedisObjectStore.__init__` (lines 677-692): assigns `url`, `bucket` and
`prefix` and connects; it never calls `ObjectStore.__init__`, so no bucket
validation happens and construction always succeeds.  (`self.prefix` is kept
as passed; a `None` prefix behaves like `""` in `join_path`, which filters
falsy components, so it is resolved here.) -/
def redisInit (bucket : Str) (pfx? : Option Str) (url : Str) :
    Except PyErr RedisStore :=
  .ok ⟨bucket, pfx?.getD [], url⟩

/-! ## `LocalObjectStore` (embedded dictionary / shelve backend), lines 508-555

State: the contents of the shelve database at `path/bucket`.  `shelve`
pickles values on write and unpickles on read; pickle round-trips, so the
state maps namespaced keys directly to `Value`s.
-/

/-- The shelve key used by every `LocalObjectStore` operation:
`self.join_path(key)`. -/
def localKey (s : LocalStore) (k : Str) : Str := joinPath s.pfx [k]

/-- State of a shelve database: namespaced key to stored value. -/
abbrev Shelf := List (Str × Value)

/-- `LocalObjectStore.put`: `db[self.join_path(key)] = data`. -/
def localPut (s : LocalStore) (st : Shelf) (k : Str) (v : Value) : Shelf :=
  setA st (localKey s k) v

/-- `LocalObjectStore.get`: `db[self.join_path(key)]`; a missing key raises
`KeyError`. -/
def localGet (s : LocalStore) (st : Shelf) (k : Str) : Except PyErr Value :=
  match lookupA st (localKey s k) with
  | some v => .ok v
  | none => .error (.keyError (localKey s k))

/-- `LocalObjectStore.exists`: `self.join_path(key) in db`. -/
def localExists (s : LocalStore) (st : Shelf) (k : Str) : Bool :=
  (lookupA st (localKey s k)).isSome

/-- `LocalObjectStore.delete`: `del db[self.join_path(key)]`; raises
`KeyError` when the key is absent. -/
def localDelete (s : LocalStore) (st : Shelf) (k : Str) : Except PyErr Shelf :=
  if (lookupA st (localKey s k)).isSome then .ok (eraseA st (localKey s k))
  else .error (.keyError (localKey s k))

/-- `LocalObjectStore.list(prefix)`: `prefix = self.join_path(prefix) + "/"`;
yield `key.removeprefix(prefix)` for every persisted key starting with it. -/
def localList (s : LocalStore) (st : Shelf) (p : Str) : List Str :=
  let full := joinPath s.pfx [p] ++ ['/']
  ((st.map (fun e => e.1)).filter (fun k => full.isPrefixOf k)).map
    (fun k => k.drop full.length)

/-! ## `LocalLargeObjectStore`, lines 558-603

State: the shelve database plus the file-per-large-object directory.  Files
hold `pickle.dumps(data)`, so they are modelled as storing the `Value`.
-/

/-- State of a `LocalLargeObjectStore`: shelve contents and the side files. -/
structure LLState where
  shelf : Shelf
  files : List (Str × Value)
deriving DecidableEq, Repr

/-- The directory of a disk-backed store: `self.path = str(path / bucket)`. -/
def localDir (s : LocalStore) : Str := s.root ++ '/' :: s.bucket

/-- `LocalLargeObjectStore.put` (lines 568-583): encodes with `_to_bytes`;
if the size exceeds 10 MiB it pickles the data into
`Path(self.path).joinpath(slugify(key))` and rebinds the local variable
`data` to that path — and then falls off the end of the function.  It never
calls `super().put`, so the shelve database is never written. -/
def llPut (env : PyEnv) (s : LocalStore) (st : LLState) (k : Str) (v : Value) :
    LLState :=
  let enc := toBytes env v
  let size := enc.2.1
  if size > 10485760 then
    ⟨st.shelf, setA st.files (localDir s ++ '/' :: env.slugify k) v⟩
  else
    st

/-- `LocalLargeObjectStore.get`: `super().get(key)`, then if the stored value
is a `PosixPath`, unpickle the file it points at. -/
def llGet (s : LocalStore) (st : LLState) (k : Str) : Except PyErr Value :=
  match lookupA st.shelf (localKey s k) with
  | none => .error (.keyError (localKey s k))
  | some (.vpath p) =>
      match lookupA st.files p with
      | some v => .ok v
      | none => .error (.fileNotFound p)
  | some v => .ok v

/-! ## `FSObjectStore` (file-per-key backend), lines 606-658

State: the files under `self.path = str(path / bucket)`, mapping file path to
the stored value (files hold `pickle.dumps(data)`; pickle round-trips).
-/

/-- `FSObjectStore._file_path(key) = Path(self.path).joinpath(key)`.
Note that `self.prefix` is NOT part of the file path. -/
def fsFilePath (s : LocalStore) (k : Str) : Str := localDir s ++ '/' :: k

/-- State of an `FSObjectStore`: file path to stored value. -/
abbrev FSFiles := List (Str × Value)

/-- `FSObjectStore.put`: `file_path.write_bytes(pickle.dumps(data))`. -/
def fsPut (s : LocalStore) (st : FSFiles) (k : Str) (v : Value) : FSFiles :=
  setA st (fsFilePath s k) v

/-- `FSObjectStore.exists`: `self._file_path(key).exists()`. -/
def fsExists (s : LocalStore) (st : FSFiles) (k : Str) : Bool :=
  (lookupA st (fsFilePath s k)).isSome

/-- `FSObjectStore.get`: raises `KeyError` when `exists` is false, else
unpickles the file contents. -/
def fsGet (s : LocalStore) (st : FSFiles) (k : Str) : Except PyErr Value :=
  if fsExists s st k then
    match lookupA st (fsFilePath s k) with
    | some v => .ok v
    | none => .error (.keyError k)
  else .error (.keyError k)

/-- `FSObjectStore.delete`: `self._file_path(key).unlink()`; `unlink` raises
`FileNotFoundError` when the file is absent. -/
def fsDelete (s : LocalStore) (st : FSFiles) (k : Str) : Except PyErr FSFiles :=
  if fsExists s st k then .ok (eraseA st (fsFilePath s k))
  else .error (.fileNotFound (fsFilePath s k))

/-- `FSObjectStore.list(prefix)` (lines 651-655): glob `**/*` under
`Path(self.path).joinpath(prefix)` and yield paths relative to `self.path` —
relative to the bucket directory, NOT to the prefix argument, and ignoring
`self.prefix` altogether.  The glob yields regular files AND directories:
`put` creates every parent directory of a slash-containing key
(`file_path.parent.mkdir(parents=True)`) and `delete` never removes
directories, so the walk also yields directory paths, which are not stored
entries.  `dirs` is the set of directory paths existing under the bucket
directory. -/
def fsList (s : LocalStore) (st : FSFiles) (dirs : List Str) (p : Str) : List Str :=
  let base := localDir s
  let dir := if p.isEmpty then base else base ++ '/' :: p
  (((st.map (fun e => e.1)) ++ dirs).filter (fun f => (dir ++ ['/']).isPrefixOf f)).map
    (fun f => f.drop (base.length + 1))

/-! ## `S3ObjectStore`, lines 304-505

State: the remote bucket contents, mapping object key to `(body, content
type)` as stored by `put_object`.  Decoding in `get` dispatches on the stored
content type; blob/content-type combinations that `put` never produces are
decode errors (the modelled `body.read().decode(...)` of foreign bytes).
-/

/-- State of the remote S3 bucket: object key to body and content type. -/
abbrev S3State := List (Str × (Blob × Str))

/-- The object key used by the S3 operations: `self.join_path(key)`. -/
def s3Key (s : StoreId) (k : Str) : Str := joinPath s.pfx [k]

/-- `S3ObjectStore.put` (with `_put_bytes`): encode via `_to_bytes`, then one
`put_object` carrying the content type. -/
def s3Put (env : PyEnv) (s : StoreId) (st : S3State) (k : Str) (v : Value) :
    S3State :=
  let enc := toBytes env v
  setA st (s3Key s k) (enc.1, enc.2.2.1)

/-- Decoding part of `S3ObjectStore.get` (lines 418-455), dispatching on the
stored content type exactly as the source's if/elif chain does.  In the
`application/x-gzip` / gzip content-encoding branch the source calls
`r.read()` on the response dict, which raises `AttributeError`
(`put` never produces that content type, so the branch is dead in practice).
The `.gz` suffix branch calls `gzip.decompress`, which raises on bodies that
are not gzip data; `put` writes raw bodies, so it is modelled as the error
`gzip.decompress` raises on non-gzip input. -/
def s3Decode (key : Str) (b : Blob) (ct : Str) : Except PyErr Value :=
  if ct = ofStr "application/x-gzip" then .error .attributeError
  else if ct = ofStr "application/octet-stream" then
    if (ofStr ".gz").isSuffixOf key then .error .ioError
    else match b with
      | .octets bs => .ok (.vbytes bs)
      | _ => .error .ioError
  else if ct = ofStr "text/plain; charset=utf-8" then
    match b with
    | .utf8 s => .ok (.vstr s)
    | _ => .error .ioError
  else if ct = ofStr "application/json" then
    match b with
    | .jsonb txt => .ok (.vjson txt)
    | _ => .error .ioError
  else if ct = ofStr "application/x-pickle" then
    match b with
    | .pkl pb => .ok (.vobj pb)
    | _ => .error .ioError
  else .error .ioError

/-- `S3ObjectStore.get`: a missing remote key (`NoSuchKey`) is translated to
`KeyError`; otherwise the body is decoded per the stored content type. -/
def s3Get (s : StoreId) (st : S3State) (k : Str) : Except PyErr Value :=
  match lookupA st (s3Key s k) with
  | none => .error (.keyError (s3Key s k))
  | some (b, ct) => s3Decode (s3Key s k) b ct

/-- `S3ObjectStore.exists` (lines 457-462): `head_object` inside
`try/except Exception: return False` — never raises for a missing key. -/
def s3Exists (s : StoreId) (st : S3State) (k : Str) : Bool :=
  (lookupA st (s3Key s k)).isSome

/-- `S3ObjectStore.delete`: a single `delete_object`, which S3 defines as a
no-op for an absent key; never raises. -/
def s3Delete (s : StoreId) (st : S3State) (k : Str) : S3State :=
  eraseA st (s3Key s k)

/-- Python `s.removeprefix(pre)`: drop `pre` from the front when it is a
prefix, otherwise return `s` unchanged. -/
def removePrefixStr (s pre : Str) : Str :=
  if pre.isPrefixOf s then s.drop pre.length else s

/-- `S3ObjectStore.list(prefix)` (lines 467-488): `prefix = self.join_path(prefix)`;
a trailing "*" is dropped, otherwise a trailing "/" is ensured; the remote
listing yields every object key starting with that adjusted prefix, and each
is returned as `key.removeprefix(self.prefix).lstrip("/")` — only the
STORE's prefix is stripped, so the listed prefix argument stays in front of
every yielded key. -/
def s3List (s : StoreId) (st : S3State) (p : Str) : List Str :=
  let full := joinPath s.pfx [p]
  let adj :=
    if full.getLast? = some '*' then full.dropLast
    else if full.getLast? = some '/' then full
    else full ++ ['/']
  ((st.map (fun e => e.1)).filter (fun k => adj.isPrefixOf k)).map
    (fun k => (removePrefixStr k s.pfx).dropWhile isSlash)

/-! ## `RedisObjectStore`, lines 673-741

State: the remote key space, mapping `join_pathb` keys to stored values
(`put` stores `pickle.dumps(data)` and `get` unpickles; pickle round-trips,
so values are stored directly).
-/

/-- State of the redis key space visible to this layer. -/
abbrev RedisKV := List (Str × Value)

/-- The `StoreId` view of a `RedisObjectStore` (for `join_pathb`). -/
def redisId (s : RedisStore) : StoreId := ⟨s.bucket, s.pfx⟩

/-- The redis key used by put/get/exists/delete: `self.join_pathb(key)`. -/
def redisKey (s : RedisStore) (k : Str) : Str := joinPathB (redisId s) [k]

/-- `RedisObjectStore.put`: `self.client.set(self.join_pathb(key), pickle.dumps(data))`. -/
def redisPut (s : RedisStore) (st : RedisKV) (k : Str) (v : Value) : RedisKV :=
  setA st (redisKey s k) v

/-- `RedisObjectStore.get` (lines 712-716): a `None` reply raises `KeyError`,
otherwise the reply is unpickled. -/
def redisGet (s : RedisStore) (st : RedisKV) (k : Str) : Except PyErr Value :=
  match lookupA st (redisKey s k) with
  | none => .error (.keyError k)
  | some v => .ok v

/-- `RedisObjectStore.exists`: `self.client.exists(...)` — the reply is the
count of existing keys (0 or 1 here), modelled as its truthiness. -/
def redisExists (s : RedisStore) (st : RedisKV) (k : Str) : Bool :=
  (lookupA st (redisKey s k)).isSome

/-- `RedisObjectStore.delete`: a single `DEL`, a no-op when absent; never
raises. -/
def redisDelete (s : RedisStore) (st : RedisKV) (k : Str) : RedisKV :=
  eraseA st (redisKey s k)

/-- `RedisObjectStore.sub(*args)` without a class change (lines 694-704):
constructs a fresh `RedisObjectStore(bucket=self.bucket,
prefix=self.prefix if not args else self.join_path(*args), url=self.url,
client=self.client)`; the redis constructor performs no prefix rewriting. -/
def redisSub (s : RedisStore) (args : List Str) : RedisStore :=
  ⟨s.bucket, if args.isEmpty then s.pfx else joinPath s.pfx args, s.url⟩

/-- Python `s.replace(pat, "")` for a nonempty pattern: scan left to right,
dropping every (leftmost, non-overlapping) occurrence of the pattern.  The
`fuel` argument makes the recursion structural; each step consumes at least
one character, so `replaceAll` passing `s.length` never exhausts it. -/
def replaceDrop (pat : Str) : Nat → Str → Str
  | _, [] => []
  | 0, s => s
  | fuel + 1, c :: rest =>
      if pat.isPrefixOf (c :: rest) then replaceDrop pat fuel ((c :: rest).drop pat.length)
      else c :: replaceDrop pat fuel rest

/-- Python `s.replace(pat, "")` (empty patterns do not occur here: the
pattern always starts with the bucket name and a bucket is nonempty). -/
def replaceAll (s pat : Str) : Str :=
  match pat with
  | [] => s
  | _ :: _ => replaceDrop pat s.length s

/-- `RedisObjectStore.list(prefix)` (lines 726-728): scans
`self.join_pathb("*")` — the `prefix` ARGUMENT is ignored — and yields
`e.replace(self.join_pathb(""), "").strip("/")`.  The scan glob
`bucket/pfx/*` matches every key beginning with `bucket/pfx/`. -/
def redisList (s : RedisStore) (st : RedisKV) (p : Str) : List Str :=
  let _ := p
  let pat := joinPathB (redisId s) [ofStr "*"]
  let patPre := pat.dropLast
  ((st.map (fun e => e.1)).filter (fun k => patPre.isPrefixOf k)).map
    (fun k => stripSlashes (replaceAll k (joinPathB (redisId s) [])))

/-! ## `RedisQueue`, lines 906-997

State: the redis list at the queue's key, head of the Lean list = index 0 of
the redis list (`lpush` prepends).  Stored items are `pickle.dumps` of the
pushed values, modelled as the values themselves.
-/

/-- Redis `LTRIM key start stop`: keep the elements with indices in the
INCLUSIVE range `[start, stop]` (nonnegative indices). -/
def ltrim (l : List Value) (start stop : Nat) : List Value :=
  (l.drop start).take (stop + 1 - start)

/-- `RedisQueue.push` (lines 926-930): `lpush` (prepend), then, when a
maximum length is configured, `ltrim(0, self.max_length)`. -/
def rqPush (maxLength : Option Nat) (st : List Value) (v : Value) : List Value :=
  let l := v :: st
  match maxLength with
  | some m => ltrim l 0 m
  | none => l

/-- A reply from the redis client as seen by `RedisQueue._return`. -/
inductive RVal where
  /-- a bytes reply holding `pickle.dumps` of a value -/
  | rbytes (v : Value)
  /-- a list reply (what `lrange` returns) -/
  | rlist (l : List Value)
  /-- a `None` reply -/
  | rnil
deriving DecidableEq, Repr

/-- `RedisQueue._return` (lines 916-924): `None` is passed through;
a bytes reply is unpickled; `pickle.loads` of a LIST raises `TypeError`,
which `_return` re-raises after printing. -/
def rqReturn : RVal → Except PyErr (Option Value)
  | .rnil => .ok none
  | .rbytes v => .ok (some v)
  | .rlist _ => .error .typeError

/-- Redis `LRANGE key -1 -1`: a list holding the last element, or the empty
list when the key is empty/missing. -/
def lrangeLast (l : List Value) : List Value :=
  match l.getLast? with
  | none => []
  | some x => [x]

/-- `RedisQueue.peek` (lines 965-967): `self._return(self.redis.lrange(self.prefix, -1, -1))`
— the list returned by `lrange` is handed to `_return` as-is. -/
def rqPeek (st : List Value) : Except PyErr (Option Value) :=
  rqReturn (.rlist (lrangeLast st))

/-! ## Configuration loader (`config.py`, `get_config`, lines 27-52)

A parsed YAML document is a nested string-keyed mapping (`CVal`).
`get_config` flattens every document to dotted-key/value lines
(`flatten(d, reducer="dot")`), accumulates the lines of all files in
precedence order, builds `dict(lines)` (last value per key wins), and
re-nests with `unflatten(..., splitter="dot")`.

Flattened keys are modelled as segment LISTS rather than dot-joined strings;
the dot join/split round-trip of the source is a bijection between the two
as long as segment names contain no dots (the loader itself assumes this:
a dotted segment name would be torn apart by `unflatten`).  Empty mappings
as leaf values are not modelled — the claims concern leaf keys.

`unflatten` inserts each line with `nested_set_dict`: intermediate keys are
created with `setdefault(k, {})`; meeting a non-dict intermediate value
raises `TypeError` (modelled as `none`); the final key is assigned,
overwriting whatever was there.
-/

/-- A parsed YAML value: a leaf or a nested string-keyed mapping. -/
inductive CVal where
  /-- a scalar configuration value -/
  | leaf (s : String)
  /-- a nested mapping -/
  | node (es : List (String × CVal))

mutual

/-- `flatten(d, reducer="dot")` on a mapping: every leaf becomes a
(key path, value) line, in document order. -/
def flattenEs : List (String × CVal) → List (List String × String)
  | [] => []
  | (k, v) :: rest => (flattenCV v).map (fun pr => (k :: pr.1, pr.2)) ++ flattenEs rest

/-- Path-to-leaf lines of a single configuration value. -/
def flattenCV : CVal → List (List String × String)
  | .leaf s => [([], s)]
  | .node es => flattenEs es

end

mutual

/-- Looks up a leaf by key path in a mapping (first match per level,
matching dict lookup). -/
def leafAtE : List (String × CVal) → List String → Option String
  | [], _ => none
  | _ :: _, [] => none
  | (k', v) :: rest, k :: tl =>
      if k' = k then leafIn v tl else leafAtE rest (k :: tl)

/-- Looks up a leaf by key path inside a value. -/
def leafIn : CVal → List String → Option String
  | .leaf s, [] => some s
  | .leaf _, _ :: _ => none
  | .node es, p => leafAtE es p

end

/-- `nested_set_dict(d, keys, value)` of `flatten_dict.unflatten`: walk the
key path with `setdefault(k, {})`, failing (`TypeError`) on a non-dict
intermediate value, and assign at the final key (dict lookup and assignment
are the generic `lookupA` / `setA`). -/
def insertCV (es : List (String × CVal)) (path : List String) (v : String) :
    Option (List (String × CVal)) :=
  match path with
  | [] => none
  | [k] => some (setA es k (.leaf v))
  | k :: rest =>
      match lookupA es k with
      | none => (insertCV [] rest v).map (fun sub => es ++ [(k, CVal.node sub)])
      | some (.node sub) => (insertCV sub rest v).map (fun sub' => setA es k (.node sub'))
      | some (.leaf _) => none

/-- `unflatten(dict(lines), splitter="dot")`: insert the lines left to right
into an initially empty mapping. -/
def unflattenE (lines : List (List String × String)) :
    Option (List (String × CVal)) :=
  lines.foldl (fun acc pr => acc.bind (fun es => insertCV es pr.1 pr.2)) (some [])

/-- `get_config(paths)`: flatten every parsed document in precedence order,
take `dict(lines)` (later files override earlier ones per leaf key), and
re-nest. -/
def getConfig (docs : List (List (String × CVal))) :
    Option (List (String × CVal)) :=
  unflattenE (dictOf (docs.flatMap flattenEs))

/-! ## Generic lemmas about the dict model -/

theorem lookupA_nil {α β : Type} [DecidableEq α] (k : α) :
    lookupA ([] : List (α × β)) k = none := rfl

theorem lookupA_cons {α β : Type} [DecidableEq α] (e : α × β) (es : List (α × β)) (k : α) :
    lookupA (e :: es) k = if e.1 = k then some e.2 else lookupA es k := by
  by_cases h : e.1 = k <;> simp [lookupA, List.find?_cons, h]

theorem lookupA_append {α β : Type} [DecidableEq α] (l₁ l₂ : List (α × β)) (k : α) :
    lookupA (l₁ ++ l₂) k = (lookupA l₁ k).or (lookupA l₂ k) := by
  induction l₁ with
  | nil => simp [lookupA_nil, Option.or]
  | cons e es ih =>
      rw [List.cons_append, lookupA_cons, lookupA_cons]
      by_cases h : e.1 = k <;> simp [h, ih, Option.or]

theorem lookupA_mapset {α β : Type} [DecidableEq α] (l : List (α × β)) (k : α) (v : β) :
    lookupA (l.map (fun e => if e.1 = k then (k, v) else e)) k =
      if l.any (fun e => e.1 = k) then some v else none := by
  induction l with
  | nil => simp [lookupA_nil]
  | cons e es ih =>
      rw [List.map_cons, lookupA_cons]
      by_cases h : e.1 = k
      · simp [h]
      · simp only [if_neg h, ih, List.any_cons]
        congr 1
        rw [decide_eq_false h, Bool.false_or]

theorem lookupA_mapset_ne {α β : Type} [DecidableEq α] (l : List (α × β))
    (k k' : α) (v : β) (hne : k' ≠ k) :
    lookupA (l.map (fun e => if e.1 = k then (k, v) else e)) k' = lookupA l k' := by
  induction l with
  | nil => rfl
  | cons e es ih =>
      rw [List.map_cons, lookupA_cons, lookupA_cons]
      by_cases h : e.1 = k
      · rw [if_pos h, if_neg (fun hk => hne hk.symm), if_neg (h ▸ fun hk => hne hk.symm), ih]
      · rw [if_neg h]
        by_cases h2 : e.1 = k' <;> simp [h2, ih]

theorem lookupA_eq_none_of_not_any {α β : Type} [DecidableEq α] (es : List (α × β)) (k : α)
    (h : ¬ es.any (fun e => e.1 = k)) : lookupA es k = none := by
  induction es with
  | nil => rfl
  | cons e es ih =>
      rw [lookupA_cons]
      simp only [List.any_cons, Bool.or_eq_true, not_or] at h
      rw [if_neg (by simpa using h.1)]
      exact ih h.2

theorem lookupA_setA_self {α β : Type} [DecidableEq α] (es : List (α × β)) (k : α) (v : β) :
    lookupA (setA es k v) k = some v := by
  unfold setA
  by_cases h : es.any (fun e => e.1 = k)
  · rw [if_pos h, lookupA_mapset, if_pos h]
  · rw [if_neg h, lookupA_append, lookupA_eq_none_of_not_any _ _ h]
    simp [lookupA_cons, Option.or]

theorem lookupA_setA_ne {α β : Type} [DecidableEq α] (es : List (α × β))
    (k k' : α) (v : β) (hne : k' ≠ k) :
    lookupA (setA es k v) k' = lookupA es k' := by
  unfold setA
  by_cases h : es.any (fun e => e.1 = k)
  · rw [if_pos h, lookupA_mapset_ne _ _ _ _ hne]
  · rw [if_neg h, lookupA_append]
    have h1 : lookupA [(k, v)] k' = none := by
      rw [lookupA_cons, if_neg (fun hk => hne hk.symm)]; rfl
    rw [h1]
    cases lookupA es k' <;> rfl

theorem eraseA_absent {α β : Type} [DecidableEq α] (es : List (α × β)) (k : α)
    (h : lookupA es k = none) : eraseA es k = es := by
  induction es with
  | nil => rfl
  | cons e es ih =>
      rw [lookupA_cons] at h
      by_cases he : e.1 = k
      · rw [if_pos he] at h; exact absurd h (by simp)
      · rw [if_neg he] at h
        unfold eraseA at ih ⊢
        rw [List.eraseP_cons]
        simp [he, ih h]

/-! ## Lemmas about last-match lookup and `dictOf` (claim C8) -/

theorem lookupA_mem_keys {α β : Type} [DecidableEq α] (es : List (α × β)) (k : α) (v : β)
    (h : lookupA es k = some v) : k ∈ es.map (fun e => e.1) := by
  induction es with
  | nil => simp [lookupA_nil] at h
  | cons e es ih =>
      rw [lookupA_cons] at h
      by_cases he : e.1 = k
      · simp only [List.map_cons, List.mem_cons]
        exact Or.inl he.symm
      · rw [if_neg he] at h
        simp only [List.map_cons, List.mem_cons]
        exact Or.inr (ih h)

theorem lookupLastA_cons {α β : Type} [DecidableEq α] (e : α × β) (es : List (α × β)) (k : α) :
    lookupLastA (e :: es) k = (lookupLastA es k).or (if e.1 = k then some e.2 else none) := by
  unfold lookupLastA
  rw [List.reverse_cons, lookupA_append]
  congr 1
  rw [lookupA_cons]
  by_cases h : e.1 = k <;> simp [h, lookupA_nil]

theorem lookupLastA_append {α β : Type} [DecidableEq α] (l₁ l₂ : List (α × β)) (k : α) :
    lookupLastA (l₁ ++ l₂) k = (lookupLastA l₂ k).or (lookupLastA l₁ k) := by
  unfold lookupLastA
  rw [List.reverse_append, lookupA_append]

theorem lookupLastA_mem_keys {α β : Type} [DecidableEq α] (es : List (α × β)) (k : α) (v : β)
    (h : lookupLastA es k = some v) : k ∈ es.map (fun e => e.1) := by
  unfold lookupLastA at h
  have hm := lookupA_mem_keys _ _ _ h
  rw [List.map_reverse, List.mem_reverse] at hm
  exact hm

theorem lookupLastA_setA_self {α β : Type} [DecidableEq α] (es : List (α × β)) (k : α) (v : β) :
    lookupLastA (setA es k v) k = some v := by
  unfold lookupLastA setA
  by_cases h : es.any (fun e => e.1 = k)
  · rw [if_pos h, ← List.map_reverse, lookupA_mapset, if_pos (by rwa [List.any_reverse])]
  · rw [if_neg h]
    rw [show (es ++ [(k, v)]).reverse = (k, v) :: es.reverse by simp]
    rw [lookupA_cons, if_pos rfl]

theorem lookupLastA_setA_ne {α β : Type} [DecidableEq α] (es : List (α × β))
    (k k' : α) (v : β) (hne : k' ≠ k) :
    lookupLastA (setA es k v) k' = lookupLastA es k' := by
  unfold lookupLastA setA
  by_cases h : es.any (fun e => e.1 = k)
  · rw [if_pos h, ← List.map_reverse, lookupA_mapset_ne _ _ _ _ hne]
  · rw [if_neg h]
    rw [show (es ++ [(k, v)]).reverse = (k, v) :: es.reverse by simp]
    rw [lookupA_cons, if_neg (fun hh => hne hh.symm)]

theorem setA_keys_subset {α β : Type} [DecidableEq α] (es : List (α × β)) (k : α) (v : β)
    (x : α) (hx : x ∈ (setA es k v).map (fun e => e.1)) :
    x ∈ es.map (fun e => e.1) ∨ x = k := by
  unfold setA at hx
  by_cases h : es.any (fun e => e.1 = k)
  · rw [if_pos h, List.map_map] at hx
    obtain ⟨e, he, hex⟩ := List.mem_map.mp hx
    by_cases hek : e.1 = k
    · right
      simp only [Function.comp, if_pos hek] at hex
      exact hex.symm
    · left
      simp only [Function.comp, if_neg hek] at hex
      exact List.mem_map.mpr ⟨e, he, hex⟩
  · rw [if_neg h, List.map_append] at hx
    rcases List.mem_append.mp hx with h' | h'
    · exact Or.inl h'
    · right
      simpa using h'

theorem lookupLastA_foldl_setA {α β : Type} [DecidableEq α] (l : List (α × β))
    (acc : List (α × β)) (k : α) :
    lookupLastA (l.foldl (fun a pr => setA a pr.1 pr.2) acc) k
      = (lookupLastA l k).or (lookupLastA acc k) := by
  induction l generalizing acc with
  | nil => simp [lookupLastA, lookupA_nil]
  | cons pr rest ih =>
      rw [List.foldl_cons, ih, lookupLastA_cons]
      by_cases h : pr.1 = k
      · rw [if_pos h]
        cases hr : lookupLastA rest k with
        | some w => simp
        | none =>
            have h2 : lookupLastA (setA acc pr.1 pr.2) k = some pr.2 := by
              rw [← h]
              exact lookupLastA_setA_self acc pr.1 pr.2
            simp [h2]
      · rw [if_neg h, lookupLastA_setA_ne _ _ _ _ (fun hh => h hh.symm)]
        cases lookupLastA rest k <;> simp

theorem lookupLastA_dictOf {α β : Type} [DecidableEq α] (l : List (α × β)) (k : α) :
    lookupLastA (dictOf l) k = lookupLastA l k := by
  unfold dictOf
  rw [lookupLastA_foldl_setA]
  cases lookupLastA l k <;> simp [lookupLastA, lookupA_nil]

theorem foldl_setA_keys_subset {α β : Type} [DecidableEq α] (l : List (α × β))
    (acc : List (α × β)) (x : α)
    (hx : x ∈ (l.foldl (fun a pr => setA a pr.1 pr.2) acc).map (fun e => e.1)) :
    x ∈ acc.map (fun e => e.1) ∨ x ∈ l.map (fun e => e.1) := by
  induction l generalizing acc with
  | nil => exact Or.inl hx
  | cons pr rest ih =>
      rw [List.foldl_cons] at hx
      rcases ih (setA acc pr.1 pr.2) hx with h | h
      · rcases setA_keys_subset acc pr.1 pr.2 x h with h' | h'
        · exact Or.inl h'
        · right
          simp [h']
      · right
        simp only [List.map_cons, List.mem_cons]
        exact Or.inr h

theorem dictOf_keys_subset {α β : Type} [DecidableEq α] (l : List (α × β)) (x : α)
    (hx : x ∈ (dictOf l).map (fun e => e.1)) : x ∈ l.map (fun e => e.1) := by
  rcases foldl_setA_keys_subset l [] x hx with h | h
  · simp at h
  · exact h

/-! ## Lemmas about `leafAtE` and `insertCV` (claim C8) -/

theorem leafAtE_nil_path (es : List (String × CVal)) : leafAtE es [] = none := by
  cases es with
  | nil => rfl
  | cons e rest =>
      obtain ⟨k, v⟩ := e
      rfl

theorem leafAtE_cons_cons (k' : String) (v : CVal) (rest : List (String × CVal))
    (k : String) (tl : List String) :
    leafAtE ((k', v) :: rest) (k :: tl)
      = if k' = k then leafIn v tl else leafAtE rest (k :: tl) := rfl

theorem leafIn_node (es : List (String × CVal)) (p : List String) :
    leafIn (CVal.node es) p = leafAtE es p := rfl

theorem leafAtE_of_lookup_none (es : List (String × CVal)) (k : String)
    (tl : List String) (h : lookupA es k = none) : leafAtE es (k :: tl) = none := by
  induction es with
  | nil => rfl
  | cons e rest ih =>
      obtain ⟨k', v⟩ := e
      rw [lookupA_cons] at h
      by_cases hk : k' = k
      · rw [if_pos (by simpa using hk)] at h
        exact absurd h (by simp)
      · rw [if_neg (by simpa using hk)] at h
        rw [leafAtE_cons_cons, if_neg hk]
        exact ih h

theorem leafAtE_of_lookup_some (es : List (String × CVal)) (k : String)
    (tl : List String) (cv : CVal) (h : lookupA es k = some cv) :
    leafAtE es (k :: tl) = leafIn cv tl := by
  induction es with
  | nil => simp [lookupA_nil] at h
  | cons e rest ih =>
      obtain ⟨k', v⟩ := e
      rw [lookupA_cons] at h
      by_cases hk : k' = k
      · rw [if_pos (by simpa using hk)] at h
        rw [leafAtE_cons_cons, if_pos hk]
        simp only [Option.some_inj] at h
        rw [h]
      · rw [if_neg (by simpa using hk)] at h
        rw [leafAtE_cons_cons, if_neg hk]
        exact ih h

theorem insertCV_leafAt_self (path : List String) (es es' : List (String × CVal))
    (v : String) (h : insertCV es path v = some es') : leafAtE es' path = some v := by
  induction path generalizing es es' with
  | nil => simp [insertCV] at h
  | cons k rest ih =>
      cases rest with
      | nil =>
          simp only [insertCV, Option.some_inj] at h
          subst h
          rw [leafAtE_of_lookup_some _ _ _ _ (lookupA_setA_self es k (CVal.leaf v))]
          rfl
      | cons r rs =>
          simp only [insertCV] at h
          split at h
          next hl =>
            cases hsub : insertCV [] (r :: rs) v with
            | none => rw [hsub] at h; simp at h
            | some sub =>
                rw [hsub] at h
                simp only [Option.map_some, Option.map_some', Option.some_inj] at h
                subst h
                have hlk : lookupA (es ++ [(k, CVal.node sub)]) k
                    = some (CVal.node sub) := by
                  rw [lookupA_append, hl, lookupA_cons, if_pos rfl]
                  rfl
                rw [leafAtE_of_lookup_some _ _ _ _ hlk, leafIn_node]
                exact ih [] sub hsub
          next sub hl =>
            cases hsub : insertCV sub (r :: rs) v with
            | none => rw [hsub] at h; simp at h
            | some sub' =>
                rw [hsub] at h
                simp only [Option.map_some, Option.map_some', Option.some_inj] at h
                subst h
                rw [leafAtE_of_lookup_some _ _ _ _
                  (lookupA_setA_self es k (CVal.node sub')), leafIn_node]
                exact ih sub sub' hsub
          next s hl => simp at h

theorem insertCV_leafAt_other (path : List String) (es es' : List (String × CVal))
    (v : String) (π : List String) (h : insertCV es path v = some es')
    (h1 : ¬ path <+: π) (h2 : ¬ π <+: path) :
    leafAtE es' π = leafAtE es π := by
  induction path generalizing es es' π with
  | nil => simp [insertCV] at h
  | cons k rest ih =>
      cases rest with
      | nil =>
          simp only [insertCV, Option.some_inj] at h
          subst h
          cases π with
          | nil => rw [leafAtE_nil_path, leafAtE_nil_path]
          | cons k' tl =>
              by_cases hk : k = k'
              · subst hk
                exact absurd ⟨tl, rfl⟩ h1
              · have hne : k' ≠ k := fun hh => hk hh.symm
                cases hl : lookupA es k' with
                | none =>
                    rw [leafAtE_of_lookup_none _ _ _
                        (by rwa [lookupA_setA_ne _ _ _ _ hne]),
                      leafAtE_of_lookup_none _ _ _ hl]
                | some cv =>
                    rw [leafAtE_of_lookup_some _ _ _ _
                        (by rwa [lookupA_setA_ne _ _ _ _ hne]),
                      leafAtE_of_lookup_some _ _ _ _ hl]
      | cons r rs =>
          simp only [insertCV] at h
          split at h
          next hl =>
            cases hsub : insertCV [] (r :: rs) v with
            | none => rw [hsub] at h; simp at h
            | some sub =>
                rw [hsub] at h
                simp only [Option.map_some, Option.map_some', Option.some_inj] at h
                subst h
                cases π with
                | nil => rw [leafAtE_nil_path, leafAtE_nil_path]
                | cons k' tl =>
                    by_cases hk : k = k'
                    · subst hk
                      have h1' : ¬ (r :: rs) <+: tl := fun hp =>
                        h1 (List.cons_prefix_cons.mpr ⟨rfl, hp⟩)
                      have h2' : ¬ tl <+: (r :: rs) := fun hp =>
                        h2 (List.cons_prefix_cons.mpr ⟨rfl, hp⟩)
                      have hlk : lookupA (es ++ [(k, CVal.node sub)]) k
                          = some (CVal.node sub) := by
                        rw [lookupA_append, hl, lookupA_cons, if_pos rfl]
                        rfl
                      rw [leafAtE_of_lookup_some _ _ _ _ hlk, leafIn_node,
                        leafAtE_of_lookup_none _ _ _ hl]
                      rw [ih [] sub tl hsub h1' h2']
                      rfl
                    · have hlk : lookupA (es ++ [(k, CVal.node sub)]) k'
                          = lookupA es k' := by
                        rw [lookupA_append, lookupA_cons,
                          if_neg (fun hh => hk hh), lookupA_nil]
                        cases lookupA es k' <;> rfl
                      cases hl' : lookupA es k' with
                      | none =>
                          rw [leafAtE_of_lookup_none _ _ _ (by rwa [hlk]),
                            leafAtE_of_lookup_none _ _ _ hl']
                      | some cv =>
                          rw [leafAtE_of_lookup_some _ _ _ _ (by rwa [hlk]),
                            leafAtE_of_lookup_some _ _ _ _ hl']
          next sub hl =>
            cases hsub : insertCV sub (r :: rs) v with
            | none => rw [hsub] at h; simp at h
            | some sub' =>
                rw [hsub] at h
                simp only [Option.map_some, Option.map_some', Option.some_inj] at h
                subst h
                cases π with
                | nil => rw [leafAtE_nil_path, leafAtE_nil_path]
                | cons k' tl =>
                    by_cases hk : k = k'
                    · subst hk
                      have h1' : ¬ (r :: rs) <+: tl := fun hp =>
                        h1 (List.cons_prefix_cons.mpr ⟨rfl, hp⟩)
                      have h2' : ¬ tl <+: (r :: rs) := fun hp =>
                        h2 (List.cons_prefix_cons.mpr ⟨rfl, hp⟩)
                      rw [leafAtE_of_lookup_some _ _ _ _
                          (lookupA_setA_self es k (CVal.node sub')),
                        leafAtE_of_lookup_some _ _ _ _ hl, leafIn_node, leafIn_node]
                      exact ih sub sub' tl hsub h1' h2'
                    · have hne : k' ≠ k := fun hh => hk hh.symm
                      cases hl' : lookupA es k' with
                      | none =>
                          rw [leafAtE_of_lookup_none _ _ _
                              (by rwa [lookupA_setA_ne _ _ _ _ hne]),
                            leafAtE_of_lookup_none _ _ _ hl']
                      | some cv' =>
                          rw [leafAtE_of_lookup_some _ _ _ _
                              (by rwa [lookupA_setA_ne _ _ _ _ hne]),
                            leafAtE_of_lookup_some _ _ _ _ hl']
          next s hl => simp at h

/-- Main correctness lemma for `unflatten`: when the flattened lines have
pairwise non-prefix key paths (as a well-formed nesting requires), the
re-nested mapping holds, at each bound path, exactly the LAST value bound to
that path. -/
theorem unflattenE_leafAt (lines : List (List String × String))
    (es : List (String × CVal)) (π : List String) (v : String)
    (h : unflattenE lines = some es)
    (hv : lookupLastA lines π = some v)
    (hpf : ∀ q ∈ lines.map (fun e => e.1), q ≠ π → ¬ q <+: π ∧ ¬ π <+: q) :
    leafAtE es π = some v := by
  induction lines using List.reverseRecOn generalizing es v with
  | nil => simp [lookupLastA, lookupA_nil] at hv
  | append_singleton l x ihl =>
      obtain ⟨p₀, v₀⟩ := x
      rw [show unflattenE (l ++ [(p₀, v₀)])
          = (unflattenE l).bind (fun es₀ => insertCV es₀ p₀ v₀) by
        unfold unflattenE
        rw [List.foldl_append]
        rfl] at h
      cases hu : unflattenE l with
      | none => rw [hu] at h; simp at h
      | some es₀ =>
          rw [hu] at h
          replace h : insertCV es₀ p₀ v₀ = some es := h
          rw [lookupLastA_append] at hv
          by_cases hp : p₀ = π
          · subst hp
            have : lookupLastA [(p₀, v₀)] p₀ = some v₀ := by
              rw [lookupLastA_cons, if_pos rfl]
              rfl
            rw [this] at hv
            replace hv : some v₀ = some v := hv
            obtain rfl := Option.some_inj.mp hv
            exact insertCV_leafAt_self p₀ es₀ es v₀ h
          · have : lookupLastA [(p₀, v₀)] π = none := by
              rw [lookupLastA_cons, if_neg hp]
              rfl
            rw [this] at hv
            simp only [Option.none_or] at hv
            have hnp := hpf p₀ (by simp) hp
            rw [insertCV_leafAt_other p₀ es₀ es v₀ π h hnp.1 hnp.2]
            exact ihl es₀ v hu hv (fun q hq hqπ => hpf q (by simp [hq]) hqπ)

/-! ## Claim C8 -/

/-- C8: for two layered configuration files A (earlier, lower precedence)
and B (later, higher precedence) whose flattened key paths are structurally
consistent (no bound path is a proper prefix of another — a well-formed
nesting), the merged configuration returned by the loader has B's value for
every leaf key B sets — in particular any leaf also set in A — and A's value
for every leaf key B does not set. -/
theorem C8_config_merge (A B : List (String × CVal)) (merged : List (String × CVal))
    (hm : getConfig [A, B] = some merged)
    (hpf : ∀ p ∈ (flattenEs A ++ flattenEs B).map (fun e => e.1),
        ∀ q ∈ (flattenEs A ++ flattenEs B).map (fun e => e.1), p ≠ q → ¬ p <+: q) :
    (∀ (π : List String) (vb : String),
        lookupLastA (flattenEs B) π = some vb → leafAtE merged π = some vb) ∧
    (∀ (π : List String) (va : String),
        lookupLastA (flattenEs A) π = some va → lookupLastA (flattenEs B) π = none →
        leafAtE merged π = some va) := by
  have hm' : unflattenE (dictOf (flattenEs A ++ flattenEs B)) = some merged := by
    unfold getConfig at hm
    rw [show ([A, B].flatMap flattenEs) = flattenEs A ++ flattenEs B by simp] at hm
    exact hm
  have key : ∀ (π : List String) (w : String),
      lookupLastA (flattenEs A ++ flattenEs B) π = some w → leafAtE merged π = some w := by
    intro π w hw
    have hπmem : π ∈ (flattenEs A ++ flattenEs B).map (fun e => e.1) :=
      lookupLastA_mem_keys _ _ _ hw
    apply unflattenE_leafAt (dictOf (flattenEs A ++ flattenEs B)) merged π w hm'
    · rw [lookupLastA_dictOf]
      exact hw
    · intro q hq hqπ
      have hqL := dictOf_keys_subset _ _ hq
      exact ⟨hpf q hqL π hπmem hqπ, hpf π hπmem q hqL (fun hh => hqπ hh.symm)⟩
  constructor
  · intro π vb hvb
    apply key
    rw [lookupLastA_append, hvb]
    rfl
  · intro π va hva hnb
    apply key
    rw [lookupLastA_append, hnb]
    exact hva

/-- C8 (witness): file A sets `x.a = 1` and `x.b = 2`; file B overrides the
single leaf `x.a = 9`; the merged profile has B's value for `x.a` and A's
value for the untouched `x.b`. -/
theorem C8_witness :
    leafAtE [("x", CVal.node [("a", CVal.leaf "9"), ("b", CVal.leaf "2")])]
        ["x", "a"] = some "9" ∧
    leafAtE [("x", CVal.node [("a", CVal.leaf "9"), ("b", CVal.leaf "2")])]
        ["x", "b"] = some "2" :=
  ⟨(C8_config_merge [("x", CVal.node [("a", CVal.leaf "1"), ("b", CVal.leaf "2")])]
      [("x", CVal.node [("a", CVal.leaf "9")])]
      [("x", CVal.node [("a", CVal.leaf "9"), ("b", CVal.leaf "2")])]
      rfl (by decide)).1 ["x", "a"] "9" rfl,
   (C8_config_merge [("x", CVal.node [("a", CVal.leaf "1"), ("b", CVal.leaf "2")])]
      [("x", CVal.node [("a", CVal.leaf "9")])]
      [("x", CVal.node [("a", CVal.leaf "9"), ("b", CVal.leaf "2")])]
      rfl (by decide)).2 ["x", "b"] "2" rfl rfl⟩

/-! ## String lemmas for the key namespace (claim C4) -/

theorem dropWhile_isSlash_head (s : Str) : (s.dropWhile isSlash).head? ≠ some '/' := by
  induction s with
  | nil => simp
  | cons c cs ih =>
      rw [List.dropWhile_cons]
      by_cases h : isSlash c
      · rw [if_pos h]
        exact ih
      · rw [if_neg h]
        intro hc
        apply h
        simp only [List.head?_cons, Option.some_inj] at hc
        simp [isSlash, hc]

theorem head?_of_prefix {l u : Str} (h : l <+: u) :
    l = [] ∨ l.head? = u.head? := by
  obtain ⟨t, rfl⟩ := h
  cases l with
  | nil => exact Or.inl rfl
  | cons c cs => exact Or.inr rfl

theorem stripSlashes_head (s : Str) : (stripSlashes s).head? ≠ some '/' := by
  unfold stripSlashes
  set u := s.dropWhile isSlash with hu
  have hpre : (u.reverse.dropWhile isSlash).reverse <+: u := by
    have h1 : u.reverse.dropWhile isSlash <:+ u.reverse := List.dropWhile_suffix _
    have h2 := List.reverse_prefix.mpr h1
    rwa [List.reverse_reverse] at h2
  rcases head?_of_prefix hpre with h | h
  · rw [h]
    simp
  · rw [h]
    exact dropWhile_isSlash_head s

theorem stripSlashes_last (s : Str) : (stripSlashes s).getLast? ≠ some '/' := by
  unfold stripSlashes
  rw [List.getLast?_reverse]
  exact dropWhile_isSlash_head _

theorem dropWhile_isSlash_of_head {s : Str} (h : s.head? ≠ some '/') :
    s.dropWhile isSlash = s := by
  cases s with
  | nil => rfl
  | cons c cs =>
      rw [List.dropWhile_cons, if_neg]
      intro hc
      apply h
      simp only [isSlash, decide_eq_true_eq] at hc
      rw [hc]
      rfl

theorem stripSlashes_of_clean {s : Str} (h1 : s.head? ≠ some '/')
    (h2 : s.getLast? ≠ some '/') : stripSlashes s = s := by
  unfold stripSlashes
  rw [dropWhile_isSlash_of_head h1]
  rw [dropWhile_isSlash_of_head (by rwa [List.head?_reverse])]
  exact s.reverse_reverse

theorem noslash_head {s : Str} (h : ∀ c ∈ s, c ≠ '/') : s.head? ≠ some '/' := by
  intro hc
  exact h '/' (List.mem_of_mem_head? (by rw [hc]; rfl)) rfl

theorem noslash_last {s : Str} (h : ∀ c ∈ s, c ≠ '/') : s.getLast? ≠ some '/' := by
  intro hc
  exact h '/' (List.mem_of_mem_getLast? (by rw [hc]; rfl)) rfl

theorem stripSlashes_of_noslash {s : Str} (h : ∀ c ∈ s, c ≠ '/') :
    stripSlashes s = s :=
  stripSlashes_of_clean (noslash_head h) (noslash_last h)

/-- Closed form of `join_path` with a single, already-stripped, nonempty
argument. -/
theorem joinPath_single (p a : Str) (ha : stripSlashes a = a) (hne : a ≠ []) :
    joinPath p [a] =
      if stripSlashes p = [] then a else stripSlashes p ++ '/' :: a := by
  by_cases hp : p = []
  · subst hp
    rw [if_pos (show stripSlashes [] = [] from rfl)]
    simp [joinPath, ha, hne, ofStr]
  · by_cases hsp : stripSlashes p = []
    · rw [if_pos hsp]
      simp [joinPath, hp, hne, ha, hsp, ofStr]
    · rw [if_neg hsp]
      simp [joinPath, hp, hne, ha, hsp, ofStr, List.intersperse]

/-- The composition law behind `S.sub("a").sub("b") = S.sub("a/b")`:
`join_path` over slash-free nonempty segments is associative with the
slash-join of the segments. -/
theorem joinPath_assoc (p a b : Str) (ha : ∀ c ∈ a, c ≠ '/') (hb : ∀ c ∈ b, c ≠ '/')
    (hna : a ≠ []) (hnb : b ≠ []) :
    joinPath (joinPath p [a]) [b] = joinPath p [a ++ '/' :: b] := by
  have hsa : stripSlashes a = a := stripSlashes_of_noslash ha
  have hsb : stripSlashes b = b := stripSlashes_of_noslash hb
  have hsab : stripSlashes (a ++ '/' :: b) = a ++ '/' :: b := by
    apply stripSlashes_of_clean
    · rw [List.head?_append_of_ne_nil _ hna]
      exact noslash_head ha
    · rw [List.getLast?_append_cons]
      cases b with
      | nil => exact absurd rfl hnb
      | cons c cs =>
          rw [List.getLast?_cons_cons]
          exact noslash_last hb
  have hnab : a ++ '/' :: b ≠ [] := by
    cases a <;> simp
  rw [joinPath_single p a hsa hna, joinPath_single p (a ++ '/' :: b) hsab hnab]
  by_cases hsp : stripSlashes p = []
  · rw [if_pos hsp, if_pos hsp]
    rw [joinPath_single a b hsb hnb, if_neg (show ¬ stripSlashes a = [] by rw [hsa]; exact hna),
      hsa]
  · rw [if_neg hsp, if_neg hsp]
    have hq : stripSlashes (stripSlashes p ++ '/' :: a) = stripSlashes p ++ '/' :: a := by
      apply stripSlashes_of_clean
      · rw [List.head?_append_of_ne_nil _ hsp]
        exact stripSlashes_head p
      · rw [List.getLast?_append_cons]
        cases a with
        | nil => exact absurd rfl hna
        | cons c cs =>
            rw [List.getLast?_cons_cons]
            exact noslash_last ha
    rw [joinPath_single _ b hsb hnb, hq, if_neg (by cases stripSlashes p <;> simp)]
    simp

/-! ## Claim C4 -/

theorem splitFirst_eq_none {c : Char} {s : Str} (h : c ∉ s) : splitFirst c s = none := by
  induction s with
  | nil => rfl
  | cons x xs ih =>
      unfold splitFirst
      by_cases hx : x = c
      · subst hx
        exact absurd (List.mem_cons_self x xs) h
      · rw [if_neg hx, ih (fun hm => h (List.mem_cons_of_mem x hm))]
        rfl

/-- C4 (counterexample): for the cloud-object backend with a
slash-containing bucket (only underscores are rejected, and
`S3ObjectStore.__init__` explicitly supports the form by folding the part
after the first "/" into the prefix), `S.sub("a").sub("b")` and
`S.sub("a/b")` produce DIFFERENT handles: every `sub` constructs a fresh
`S3ObjectStore`, re-running the constructor's bucket-slash fold.  On the
store constructed with bucket "b/x" and prefix "p" — handle
`("b/x", "x/p")` — the chained sub reaches prefix "x/x/x/p/a/b" while the
joined sub reaches "x/x/p/a/b", and the two handles resolve the same key to
different namespaced entries. -/
theorem C4_counterexample_s3_slash_bucket :
    s3Init (ofStr "b/x") (some (ofStr "p")) = Except.ok ⟨ofStr "b/x", ofStr "x/p"⟩ ∧
    (s3Sub ⟨ofStr "b/x", ofStr "x/p"⟩ [ofStr "a"]).bind
        (fun s1 => s3Sub s1 [ofStr "b"])
      = Except.ok ⟨ofStr "b/x", ofStr "x/x/x/p/a/b"⟩ ∧
    s3Sub ⟨ofStr "b/x", ofStr "x/p"⟩ [ofStr "a/b"]
      = Except.ok ⟨ofStr "b/x", ofStr "x/x/p/a/b"⟩ ∧
    s3Key ⟨ofStr "b/x", ofStr "x/x/x/p/a/b"⟩ (ofStr "k")
      ≠ s3Key ⟨ofStr "b/x", ofStr "x/x/p/a/b"⟩ (ofStr "k") :=
  ⟨rfl, rfl, rfl, by decide⟩

/-- C4 (amended): for nonempty slash-free path segments a and b, the shared
`ObjectStore.sub` (used by the embedded-dictionary and file-per-key
backends) and `RedisObjectStore.sub` compose: `S.sub("a").sub("b")` equals
`S.sub("a/b")` — same bucket and prefix — and both resolve every key to the
same namespaced entry.  `S3ObjectStore.sub` composes the same way provided
the bucket name contains no slash (and no underscore, which construction
rejects); for a slash-containing bucket the constructor's bucket-slash
fold, re-run on every `sub`, shifts the prefix (see the counterexample). -/
theorem C4_amended_sub_composition (S : StoreId) (r : RedisStore) (bucket pfx : Str)
    (a b : Str) (ha : ∀ c ∈ a, c ≠ '/') (hb : ∀ c ∈ b, c ≠ '/')
    (hna : a ≠ []) (hnb : b ≠ []) :
    (subStore (subStore S [a]) [b] = subStore S [a ++ '/' :: b] ∧
      ∀ k : Str, joinPathB (subStore (subStore S [a]) [b]) [k]
          = joinPathB (subStore S [a ++ '/' :: b]) [k]) ∧
    redisSub (redisSub r [a]) [b] = redisSub r [a ++ '/' :: b] ∧
    ('/' ∉ bucket → '_' ∉ bucket →
      (s3Sub ⟨bucket, pfx⟩ [a]).bind (fun s1 => s3Sub s1 [b])
        = s3Sub ⟨bucket, pfx⟩ [a ++ '/' :: b]) := by
  refine ⟨?_, ?_, ?_⟩
  · have h := joinPath_assoc S.pfx a b ha hb hna hnb
    have hs : subStore (subStore S [a]) [b] = subStore S [a ++ '/' :: b] := by
      unfold subStore
      rw [h]
    exact ⟨hs, fun k => by rw [hs]⟩
  · have hr := joinPath_assoc r.pfx a b ha hb hna hnb
    show (⟨r.bucket, joinPath (joinPath r.pfx [a]) [b], r.url⟩ : RedisStore)
        = ⟨r.bucket, joinPath r.pfx [a ++ '/' :: b], r.url⟩
    rw [hr]
  · intro hslash hund
    have hinit : ∀ q : Str, s3Init bucket (some q) = Except.ok ⟨bucket, q⟩ := by
      intro q
      unfold s3Init osInit
      rw [if_neg hund, splitFirst_eq_none hslash]
      rfl
    have e1 : s3Sub ⟨bucket, pfx⟩ [a] = Except.ok ⟨bucket, joinPath pfx [a]⟩ := hinit _
    have e2 : s3Sub ⟨bucket, joinPath pfx [a]⟩ [b]
        = Except.ok ⟨bucket, joinPath (joinPath pfx [a]) [b]⟩ := hinit _
    have e3 : s3Sub ⟨bucket, pfx⟩ [a ++ '/' :: b]
        = Except.ok ⟨bucket, joinPath pfx [a ++ '/' :: b]⟩ := hinit _
    rw [e1]
    show s3Sub ⟨bucket, joinPath pfx [a]⟩ [b] = s3Sub ⟨bucket, pfx⟩ [a ++ '/' :: b]
    rw [e2, e3, joinPath_assoc pfx a b ha hb hna hnb]

/-- C4 (witness for the amended theorem): bucket "bk", prefix "p", segments
"a" and "b", key "k". -/
theorem C4_amended_witness :
    (subStore (subStore ⟨ofStr "bk", ofStr "p"⟩ [ofStr "a"]) [ofStr "b"]
        = subStore ⟨ofStr "bk", ofStr "p"⟩ [ofStr "a/b"] ∧
      joinPathB (subStore (subStore ⟨ofStr "bk", ofStr "p"⟩ [ofStr "a"]) [ofStr "b"])
          [ofStr "k"]
        = joinPathB (subStore ⟨ofStr "bk", ofStr "p"⟩ [ofStr "a/b"]) [ofStr "k"]) ∧
    redisSub (redisSub ⟨ofStr "bk", ofStr "p", ofStr "u"⟩ [ofStr "a"]) [ofStr "b"]
        = redisSub ⟨ofStr "bk", ofStr "p", ofStr "u"⟩ [ofStr "a/b"] ∧
    (s3Sub ⟨ofStr "bk", ofStr "p"⟩ [ofStr "a"]).bind (fun s1 => s3Sub s1 [ofStr "b"])
        = s3Sub ⟨ofStr "bk", ofStr "p"⟩ [ofStr "a/b"] :=
  have h := C4_amended_sub_composition ⟨ofStr "bk", ofStr "p"⟩
    ⟨ofStr "bk", ofStr "p", ofStr "u"⟩ (ofStr "bk") (ofStr "p") (ofStr "a") (ofStr "b")
    (by decide) (by decide) (by decide) (by decide)
  ⟨⟨h.1.1, h.1.2 (ofStr "k")⟩, h.2.1, h.2.2 (by decide) (by decide)⟩

/-! ## Claim C5 -/

/-- C5 (counterexample): the KV-service backend's `list` ignores its
`prefix` argument: on a `RedisObjectStore` with bucket "b" and empty prefix
whose key space holds "b/a/x" and "b/c/y", `list("a")` yields "c/y" — a key
that is neither under the prefix "a" nor equal to it, i.e. a key outside the
listed prefix. -/
theorem C5_counterexample_redis_list_leaks :
    redisList ⟨ofStr "b", [], ofStr "u"⟩
        [(ofStr "b/a/x", Value.vstr []), (ofStr "b/c/y", Value.vstr [])] (ofStr "a")
      = [ofStr "a/x", ofStr "c/y"] ∧
    (ofStr "a/").isPrefixOf (ofStr "c/y") = false ∧
    ofStr "c/y" ≠ ofStr "a" := by
  refine ⟨by decide, by decide, by decide⟩

/-- C5 (amended): the listing invariant holds only for the
embedded-dictionary backend: every key yielded by `list(p)`, joined with the
listing prefix, resolves to a stored entry under that prefix and is relative
to it.  The file-per-key backend's glob yields every file AND directory
under the prefix directory, relative to the BUCKET directory: each yielded
path still starts with "p/" (under the prefix, but not relative to it), and
directory yields — directories are created by `put` for slash-containing
keys and never removed — need not be stored entries (exhibited concretely in
the third conjunct).  The cloud-object backend strips only the store's own
prefix from returned keys, so its yields also retain "p/" in front, each
re-attaching to a stored entry under the store prefix.  The KV-service
backend ignores the prefix argument altogether (cf. the counterexample). -/
theorem C5_amended_listing_per_backend (s : LocalStore) :
    (∀ (st : Shelf) (p y : Str),
        y ∈ localList s st p →
        (joinPath s.pfx [p] ++ '/' :: y) ∈ st.map (fun e => e.1)) ∧
    (∀ (st : FSFiles) (dirs : List Str) (p y : Str), p ≠ [] →
        y ∈ fsList s st dirs p → (p ++ ['/']).isPrefixOf y = true) ∧
    ((ofStr "a/c") ∈ fsList ⟨ofStr "b", ofStr "p", ofStr "r"⟩
        [(ofStr "r/b/a/x", Value.vstr [])] [ofStr "r/b/a", ofStr "r/b/a/c"] (ofStr "a") ∧
      fsExists ⟨ofStr "b", ofStr "p", ofStr "r"⟩ [(ofStr "r/b/a/x", Value.vstr [])]
        (ofStr "a/c") = false) ∧
    (∀ (S : StoreId) (st : S3State) (p y : Str),
        stripSlashes S.pfx = S.pfx → p ≠ [] → (∀ c ∈ p, c ≠ '/' ∧ c ≠ '*') →
        y ∈ s3List S st p →
        (p ++ ['/']).isPrefixOf y = true ∧
          (S.pfx = [] → y ∈ st.map (fun e => e.1)) ∧
          (S.pfx ≠ [] → (S.pfx ++ '/' :: y) ∈ st.map (fun e => e.1))) ∧
    (∀ (r : RedisStore) (st : RedisKV) (p q : Str),
        redisList r st p = redisList r st q) := by
  refine ⟨?_, ?_, ⟨by decide, by decide⟩, ?_, fun r st p q => rfl⟩
  · intro st p y hy
    unfold localList at hy
    simp only [List.mem_map, List.mem_filter] at hy
    obtain ⟨k, ⟨hk, hpre⟩, rfl⟩ := hy
    have hp : (joinPath s.pfx [p] ++ ['/']) <+: k := List.isPrefixOf_iff_prefix.mp hpre
    obtain ⟨t, rfl⟩ := hp
    rw [List.drop_left]
    have : joinPath s.pfx [p] ++ '/' :: t = (joinPath s.pfx [p] ++ ['/']) ++ t := by
      simp
    rw [this]
    exact List.mem_map.mpr hk
  · intro st dirs p y hpn hy
    unfold fsList at hy
    simp only [List.mem_map, List.mem_filter] at hy
    obtain ⟨f, ⟨hf, hpre⟩, rfl⟩ := hy
    have hpe : p.isEmpty = false := by
      cases p with
      | nil => exact absurd rfl hpn
      | cons c cs => rfl
    rw [hpe] at hpre
    simp only [Bool.false_eq_true, if_false] at hpre
    have hbase : ((localDir s ++ '/' :: p) ++ ['/']) <+: f :=
      List.isPrefixOf_iff_prefix.mp hpre
    obtain ⟨t, rfl⟩ := hbase
    have hdrop : (((localDir s ++ '/' :: p) ++ ['/']) ++ t).drop ((localDir s).length + 1)
        = p ++ '/' :: t := by
      have h1 : ((localDir s ++ '/' :: p) ++ ['/']) ++ t
          = (localDir s ++ ['/']) ++ (p ++ '/' :: t) := by simp
      have h2 : (localDir s).length + 1 = (localDir s ++ ['/']).length := by simp
      rw [h1, h2, List.drop_left]
    rw [hdrop]
    apply List.isPrefixOf_iff_prefix.mpr
    exact ⟨t, by simp⟩
  · intro S st p y hclean hpn hpc hy
    have hpslash : ∀ c ∈ p, c ≠ '/' := fun c hc => (hpc c hc).1
    have hps : stripSlashes p = p := stripSlashes_of_noslash hpslash
    have hphead : p.head? ≠ some '/' := noslash_head hpslash
    have hfull : joinPath S.pfx [p]
        = if S.pfx = [] then p else S.pfx ++ '/' :: p := by
      rw [joinPath_single S.pfx p hps hpn, hclean]
    have hlast : ∀ c : Char, (joinPath S.pfx [p]).getLast? = some c → c ∈ p := by
      intro c hc
      rw [hfull] at hc
      by_cases hpfx : S.pfx = []
      · rw [if_pos hpfx] at hc
        exact List.mem_of_mem_getLast? (by rw [hc]; rfl)
      · rw [if_neg hpfx, List.getLast?_append_cons] at hc
        cases p with
        | nil => exact absurd rfl hpn
        | cons c0 cs =>
            rw [List.getLast?_cons_cons] at hc
            exact List.mem_of_mem_getLast? (by rw [hc]; rfl)
    have hstar : ¬ (joinPath S.pfx [p]).getLast? = some '*' := fun hc =>
      (hpc '*' (hlast '*' hc)).2 rfl
    have hsl : ¬ (joinPath S.pfx [p]).getLast? = some '/' := fun hc =>
      (hpc '/' (hlast '/' hc)).1 rfl
    unfold s3List at hy
    simp only [List.mem_map, List.mem_filter] at hy
    obtain ⟨k, ⟨hk, hpre⟩, rfl⟩ := hy
    rw [if_neg hstar, if_neg hsl] at hpre
    have hkpre : (joinPath S.pfx [p] ++ ['/']) <+: k := List.isPrefixOf_iff_prefix.mp hpre
    obtain ⟨t, rfl⟩ := hkpre
    by_cases hpfx : S.pfx = []
    · have hk2 : (joinPath S.pfx [p] ++ ['/']) ++ t = p ++ '/' :: t := by
        rw [hfull, if_pos hpfx]
        simp
      have hy2 : (removePrefixStr ((joinPath S.pfx [p] ++ ['/']) ++ t) S.pfx).dropWhile isSlash
          = p ++ '/' :: t := by
        rw [hk2, hpfx]
        have hr0 : removePrefixStr (p ++ '/' :: t) [] = p ++ '/' :: t := by
          unfold removePrefixStr
          rw [if_pos (List.isPrefixOf_iff_prefix.mpr List.nil_prefix),
            List.length_nil, List.drop_zero]
        rw [hr0]
        apply dropWhile_isSlash_of_head
        rw [List.head?_append_of_ne_nil _ hpn]
        exact hphead
      rw [hy2]
      refine ⟨?_, ?_, fun hne => absurd hpfx hne⟩
      · apply List.isPrefixOf_iff_prefix.mpr
        exact ⟨t, by simp⟩
      · intro _
        rw [← hk2]
        exact List.mem_map.mpr hk
    · have hk2 : (joinPath S.pfx [p] ++ ['/']) ++ t = S.pfx ++ '/' :: (p ++ '/' :: t) := by
        rw [hfull, if_neg hpfx]
        simp
      have hy2 : (removePrefixStr ((joinPath S.pfx [p] ++ ['/']) ++ t) S.pfx).dropWhile isSlash
          = p ++ '/' :: t := by
        rw [hk2]
        have hr1 : removePrefixStr (S.pfx ++ '/' :: (p ++ '/' :: t)) S.pfx
            = '/' :: (p ++ '/' :: t) := by
          unfold removePrefixStr
          rw [if_pos (List.isPrefixOf_iff_prefix.mpr (List.prefix_append _ _)),
            List.drop_left]
        rw [hr1, List.dropWhile_cons, if_pos (by rfl)]
        apply dropWhile_isSlash_of_head
        rw [List.head?_append_of_ne_nil _ hpn]
        exact hphead
      rw [hy2]
      refine ⟨?_, fun he => absurd he hpfx, ?_⟩
      · apply List.isPrefixOf_iff_prefix.mpr
        exact ⟨t, by simp⟩
      · intro _
        rw [show S.pfx ++ '/' :: (p ++ '/' :: t)
            = (joinPath S.pfx [p] ++ ['/']) ++ t from hk2.symm]
        exact List.mem_map.mpr hk

/-- C5 (witness for the amended theorem): concrete stores exercising the
embedded-dictionary, file-per-key, cloud-object and KV-service conjuncts. -/
theorem C5_amended_listing_witness :
    (joinPath (ofStr "p") [ofStr "a"] ++ '/' :: ofStr "x")
        ∈ ([(ofStr "p/a/x", Value.vstr [])].map (fun e => e.1)) ∧
    ((ofStr "a" ++ ['/']).isPrefixOf (ofStr "a/x")) = true ∧
    (((ofStr "a" ++ ['/']).isPrefixOf (ofStr "a/x")) = true ∧
      (ofStr "p" = ([] : Str) →
        ofStr "a/x" ∈ ([(ofStr "p/a/x", (Blob.utf8 [],
          ofStr "text/plain; charset=utf-8"))].map (fun e => e.1))) ∧
      (ofStr "p" ≠ ([] : Str) →
        (ofStr "p" ++ '/' :: ofStr "a/x")
          ∈ ([(ofStr "p/a/x", (Blob.utf8 [],
            ofStr "text/plain; charset=utf-8"))].map (fun e => e.1)))) ∧
    redisList ⟨ofStr "b", [], ofStr "u"⟩ [(ofStr "b/a/x", Value.vstr [])] (ofStr "a")
      = redisList ⟨ofStr "b", [], ofStr "u"⟩ [(ofStr "b/a/x", Value.vstr [])] (ofStr "zz") :=
  have h := C5_amended_listing_per_backend ⟨ofStr "b", ofStr "p", ofStr "r"⟩
  ⟨h.1 [(ofStr "p/a/x", Value.vstr [])] (ofStr "a") (ofStr "x") (by decide),
   h.2.1 [(ofStr "r/b/a/x", Value.vstr [])] [ofStr "r/b/a"] (ofStr "a") (ofStr "a/x")
     (by decide) (by decide),
   h.2.2.2.1 ⟨ofStr "b", ofStr "p"⟩
     [(ofStr "p/a/x", (Blob.utf8 [], ofStr "text/plain; charset=utf-8"))]
     (ofStr "a") (ofStr "a/x") (by decide) (by decide) (by decide) (by decide),
   h.2.2.2.2 ⟨ofStr "b", [], ofStr "u"⟩ [(ofStr "b/a/x", Value.vstr [])]
     (ofStr "a") (ofStr "zz")⟩

/-! ## Claim C10 -/

/-- C10: `RedisQueue.peek` never returns the head element: for every queue
state (empty or not) it raises `TypeError`, because the LIST returned by
`lrange(prefix, -1, -1)` is handed to `_return`, whose `pickle.loads` accepts
only bytes. -/
theorem C10_peek_always_typeError (st : List Value) :
    rqPeek st = Except.error PyErr.typeError := rfl

/-! ## Claim C3 -/

/-- C3 (code bug): with `max_length = 1`, pushing the two distinct values
"a" then "b" leaves BOTH in the queue, because redis `LTRIM key 0 stop` keeps
the inclusive range `[0, stop]`, i.e. `max_length + 1` elements.  The queue
is not trimmed to `maxLength` and the oldest value is not evicted, contrary
to the claim that exactly `maxLength` values remain. -/
theorem C3_bounded_queue_off_by_one :
    rqPush (some 1) (rqPush (some 1) [] (Value.vstr (ofStr "a"))) (Value.vstr (ofStr "b"))
        = [Value.vstr (ofStr "b"), Value.vstr (ofStr "a")] ∧
    (rqPush (some 1) (rqPush (some 1) [] (Value.vstr (ofStr "a"))) (Value.vstr (ofStr "b"))).length
        = 2 :=
  ⟨rfl, rfl⟩

/-! ## Claim C1 -/

/-- C1 (code bug): `LocalLargeObjectStore.put` (lines 568-583) never calls
`super().put`, so the shelve database is not written by any `put`; on a fresh
store, `put(k, v)` followed by `get(k)` raises `KeyError` for every key,
value and environment, instead of returning `v`. -/
theorem C1_largeobject_put_get_lost (env : PyEnv) (s : LocalStore) (k : Str) (v : Value) :
    (llPut env s ⟨[], []⟩ k v).shelf = [] ∧
    llGet s (llPut env s ⟨[], []⟩ k v) k = Except.error (PyErr.keyError (localKey s k)) := by
  have hshelf : (llPut env s ⟨[], []⟩ k v).shelf = [] := by
    unfold llPut
    dsimp only
    split <;> rfl
  refine ⟨hshelf, ?_⟩
  unfold llGet
  rw [hshelf]
  rfl

/-! ## Claim C9 -/

/-- C9: `FSObjectStore` addresses `bucket-directory/key` without the store's
prefix: two handles sharing `path` and `bucket` but holding different
prefixes address the same file for every key, so put/get/exists/delete
through either handle act on the same entry. -/
theorem C9_fs_prefix_ignored (root bucket p1 p2 : Str) (st : FSFiles) (k : Str) (v : Value) :
    fsFilePath ⟨bucket, p1, root⟩ k = fsFilePath ⟨bucket, p2, root⟩ k ∧
    fsGet ⟨bucket, p2, root⟩ (fsPut ⟨bucket, p1, root⟩ st k v) k = Except.ok v ∧
    fsExists ⟨bucket, p1, root⟩ st k = fsExists ⟨bucket, p2, root⟩ st k ∧
    fsDelete ⟨bucket, p1, root⟩ st k = fsDelete ⟨bucket, p2, root⟩ st k := by
  refine ⟨rfl, ?_, rfl, rfl⟩
  have hl : lookupA (setA st (fsFilePath ⟨bucket, p1, root⟩ k) v)
      (fsFilePath ⟨bucket, p2, root⟩ k) = some v := lookupA_setA_self st _ v
  unfold fsGet fsPut fsExists
  rw [hl]
  rfl

/-! ## Claim C6 -/

/-- C6 (counterexample): constructing a `RedisObjectStore` whose bucket name
contains an underscore succeeds: `RedisObjectStore.__init__` never calls
`ObjectStore.__init__`, so the `InvalidBucketName` check is skipped and no
construction-time failure occurs. -/
theorem C6_counterexample_redis_accepts_underscore :
    redisInit (ofStr "a_b") none (ofStr "redis://h") =
      Except.ok ⟨ofStr "a_b", [], ofStr "redis://h"⟩ := rfl

/-- C6 (amended): the embedded-dictionary, file-per-key and cloud-object
backends, whose constructors all delegate to `ObjectStore.__init__`, fail
immediately with `ValueError` when the bucket name contains an underscore
(before any put/get/exists/delete/list); the KV-service backend performs no
bucket validation and always constructs successfully. -/
theorem C6_amended_underscore_check (root bucket : Str) (pfx? : Option Str) (url : Str)
    (h : '_' ∈ bucket) :
    localInit root bucket pfx? = Except.error (PyErr.valueError bucket) ∧
    fsInit root bucket pfx? = Except.error (PyErr.valueError bucket) ∧
    s3Init bucket pfx? = Except.error (PyErr.valueError bucket) ∧
    redisInit bucket pfx? url = Except.ok ⟨bucket, pfx?.getD [], url⟩ := by
  have hos : osInit bucket pfx? = Except.error (PyErr.valueError bucket) := by
    unfold osInit
    rw [if_pos h]
  refine ⟨?_, ?_, ?_, rfl⟩
  · unfold localInit
    rw [hos]
    rfl
  · unfold fsInit localInit
    rw [hos]
    rfl
  · unfold s3Init
    rw [hos]
    rfl

/-- C6 (witness for the amended theorem), at bucket "a_b". -/
theorem C6_amended_witness :
    localInit (ofStr "/tmp/os") (ofStr "a_b") none
        = Except.error (PyErr.valueError (ofStr "a_b")) ∧
    fsInit (ofStr "/tmp/os") (ofStr "a_b") none
        = Except.error (PyErr.valueError (ofStr "a_b")) ∧
    s3Init (ofStr "a_b") none = Except.error (PyErr.valueError (ofStr "a_b")) ∧
    redisInit (ofStr "a_b") none (ofStr "redis://x")
        = Except.ok ⟨ofStr "a_b", [], ofStr "redis://x"⟩ :=
  C6_amended_underscore_check (ofStr "/tmp/os") (ofStr "a_b") none (ofStr "redis://x")
    (by decide)

/-! ## Claim C2 -/

/-- C2: on every backend, `get` of a key that is absent (never written, or
deleted) fails with `KeyError` — the NotFound condition — and never returns a
sentinel payload, while `exists` returns false without raising.  Covers the
embedded-dictionary, large-object, file-per-key, cloud-object and KV-service
backends. -/
theorem C2_absent_get_notfound_exists_false :
    (∀ (s : LocalStore) (st : Shelf) (k : Str),
        lookupA st (localKey s k) = none →
        localGet s st k = Except.error (PyErr.keyError (localKey s k)) ∧
          localExists s st k = false) ∧
    (∀ (s : LocalStore) (st : LLState) (k : Str),
        lookupA st.shelf (localKey s k) = none →
        llGet s st k = Except.error (PyErr.keyError (localKey s k))) ∧
    (∀ (s : LocalStore) (st : FSFiles) (k : Str),
        lookupA st (fsFilePath s k) = none →
        fsGet s st k = Except.error (PyErr.keyError k) ∧ fsExists s st k = false) ∧
    (∀ (s : StoreId) (st : S3State) (k : Str),
        lookupA st (s3Key s k) = none →
        s3Get s st k = Except.error (PyErr.keyError (s3Key s k)) ∧
          s3Exists s st k = false) ∧
    (∀ (s : RedisStore) (st : RedisKV) (k : Str),
        lookupA st (redisKey s k) = none →
        redisGet s st k = Except.error (PyErr.keyError k) ∧
          redisExists s st k = false) := by
  refine ⟨?_, ?_, ?_, ?_, ?_⟩
  · intro s st k h
    constructor
    · unfold localGet
      rw [h]
    · unfold localExists
      rw [h]
      rfl
  · intro s st k h
    unfold llGet
    rw [h]
  · intro s st k h
    have hex : fsExists s st k = false := by
      unfold fsExists
      rw [h]
      rfl
    constructor
    · unfold fsGet
      rw [hex]
      rfl
    · exact hex
  · intro s st k h
    constructor
    · unfold s3Get
      rw [h]
    · unfold s3Exists
      rw [h]
      rfl
  · intro s st k h
    constructor
    · unfold redisGet
      rw [h]
    · unfold redisExists
      rw [h]
      rfl

/-- C2 (witness): the five conjuncts applied to concrete empty stores. -/
theorem C2_witness :
    localGet ⟨ofStr "b", [], ofStr "r"⟩ [] (ofStr "k")
        = Except.error (PyErr.keyError (ofStr "k")) ∧
    llGet ⟨ofStr "b", [], ofStr "r"⟩ ⟨[], []⟩ (ofStr "k")
        = Except.error (PyErr.keyError (ofStr "k")) ∧
    fsGet ⟨ofStr "b", [], ofStr "r"⟩ [] (ofStr "k")
        = Except.error (PyErr.keyError (ofStr "k")) ∧
    s3Get ⟨ofStr "b", []⟩ [] (ofStr "k") = Except.error (PyErr.keyError (ofStr "k")) ∧
    redisGet ⟨ofStr "b", [], ofStr "u"⟩ [] (ofStr "k")
        = Except.error (PyErr.keyError (ofStr "k")) ∧
    localExists ⟨ofStr "b", [], ofStr "r"⟩ [] (ofStr "k") = false ∧
    fsExists ⟨ofStr "b", [], ofStr "r"⟩ [] (ofStr "k") = false ∧
    s3Exists ⟨ofStr "b", []⟩ [] (ofStr "k") = false ∧
    redisExists ⟨ofStr "b", [], ofStr "u"⟩ [] (ofStr "k") = false :=
  ⟨(C2_absent_get_notfound_exists_false.1 ⟨ofStr "b", [], ofStr "r"⟩ [] (ofStr "k") rfl).1,
   C2_absent_get_notfound_exists_false.2.1 ⟨ofStr "b", [], ofStr "r"⟩ ⟨[], []⟩ (ofStr "k") rfl,
   (C2_absent_get_notfound_exists_false.2.2.1 ⟨ofStr "b", [], ofStr "r"⟩ [] (ofStr "k") rfl).1,
   (C2_absent_get_notfound_exists_false.2.2.2.1 ⟨ofStr "b", []⟩ [] (ofStr "k") rfl).1,
   (C2_absent_get_notfound_exists_false.2.2.2.2 ⟨ofStr "b", [], ofStr "u"⟩ [] (ofStr "k") rfl).1,
   (C2_absent_get_notfound_exists_false.1 ⟨ofStr "b", [], ofStr "r"⟩ [] (ofStr "k") rfl).2,
   (C2_absent_get_notfound_exists_false.2.2.1 ⟨ofStr "b", [], ofStr "r"⟩ [] (ofStr "k") rfl).2,
   (C2_absent_get_notfound_exists_false.2.2.2.1 ⟨ofStr "b", []⟩ [] (ofStr "k") rfl).2,
   (C2_absent_get_notfound_exists_false.2.2.2.2 ⟨ofStr "b", [], ofStr "u"⟩ [] (ofStr "k") rfl).2⟩

/-! ## Claim C7 -/

/-- C7: `delete` of an absent key raises on the embedded-dictionary backend
(`KeyError` from the shelve `del`) and on the file-per-key backend
(`FileNotFoundError` from `unlink`), while on the cloud-object and KV-service
backends it is an idempotent no-op that leaves the store unchanged and does
not raise (both are modelled as total functions — no error outcome). -/
theorem C7_delete_policy :
    (∀ (s : LocalStore) (st : Shelf) (k : Str),
        lookupA st (localKey s k) = none →
        localDelete s st k = Except.error (PyErr.keyError (localKey s k))) ∧
    (∀ (s : LocalStore) (st : FSFiles) (k : Str),
        lookupA st (fsFilePath s k) = none →
        fsDelete s st k = Except.error (PyErr.fileNotFound (fsFilePath s k))) ∧
    (∀ (s : StoreId) (st : S3State) (k : Str),
        lookupA st (s3Key s k) = none → s3Delete s st k = st) ∧
    (∀ (s : RedisStore) (st : RedisKV) (k : Str),
        lookupA st (redisKey s k) = none → redisDelete s st k = st) := by
  refine ⟨?_, ?_, ?_, ?_⟩
  · intro s st k h
    unfold localDelete
    rw [h]
    rfl
  · intro s st k h
    unfold fsDelete fsExists
    rw [h]
    rfl
  · intro s st k h
    unfold s3Delete
    exact eraseA_absent st _ h
  · intro s st k h
    unfold redisDelete
    exact eraseA_absent st _ h

/-- C7 (witness): the four conjuncts applied to concrete empty stores. -/
theorem C7_witness :
    localDelete ⟨ofStr "b", [], ofStr "r"⟩ [] (ofStr "k")
        = Except.error (PyErr.keyError (ofStr "k")) ∧
    fsDelete ⟨ofStr "b", [], ofStr "r"⟩ [] (ofStr "k")
        = Except.error (PyErr.fileNotFound (ofStr "r/b/k")) ∧
    s3Delete ⟨ofStr "b", []⟩ [] (ofStr "k") = [] ∧
    redisDelete ⟨ofStr "b", [], ofStr "u"⟩ [] (ofStr "k") = [] :=
  ⟨C7_delete_policy.1 ⟨ofStr "b", [], ofStr "r"⟩ [] (ofStr "k") rfl,
   C7_delete_policy.2.1 ⟨ofStr "b", [], ofStr "r"⟩ [] (ofStr "k") rfl,
   C7_delete_policy.2.2.1 ⟨ofStr "b", []⟩ [] (ofStr "k") rfl,
   C7_delete_policy.2.2.2 ⟨ofStr "b", [], ofStr "u"⟩ [] (ofStr "k") rfl⟩

end PairProg
